import Mathlib

/-!
# User model and user controller of `go-events`

A shallow embedding of `api/internals/models/User.go` and
`api/internals/controllers/User.controller.go`.

* Go strings are modelled by Lean `String`s (sequences of Unicode scalar values).  Every string
  the controllers handle comes out of `encoding/json`, which only produces valid UTF-8, so a
  string is exactly its sequence of runes.
* `uint32` is modelled by `Nat`, bounded by `2 ^ 32` where a value enters a record.
* A Go `error` result is an `Option String`: `none` is `nil`, `some msg` is `errors.New(msg)`.
* The database handle `config.DB` is threaded explicitly as the rows of the `users` table.
-/

namespace GoEvents

/-! ## Standard-library functions used by the model -/

/-- Go `unicode.IsSpace`: the runes with the Unicode `White_Space` property. In Latin-1 these are
`\t`, `\n`, `\v`, `\f`, `\r`, space, U+0085 and U+00A0; beyond it U+1680, U+2000..U+200A, U+2028,
U+2029, U+202F, U+205F and U+3000. -/
def IsSpace (r : Char) : Bool :=
  let n := r.toNat
  (0x09 ≤ n && n ≤ 0x0D) || n == 0x20 || n == 0x85 || n == 0xA0 || n == 0x1680 ||
    (0x2000 ≤ n && n ≤ 0x200A) || n == 0x2028 || n == 0x2029 || n == 0x202F || n == 0x205F ||
    n == 0x3000

/-- Go `strings.TrimFunc(s, unicode.IsSpace)` on the runes of a string: `TrimLeftFunc` drops the
leading white space, `TrimRightFunc` then drops the trailing white space. -/
def trimRunes (l : List Char) : List Char :=
  (l.dropWhile IsSpace).rdropWhile IsSpace

/-- Go `strings.TrimSpace`: the string without its leading and trailing white space, as defined
by `unicode.IsSpace` (the ASCII fast path of the library computes the same slice as
`TrimFunc(s, unicode.IsSpace)`). -/
def TrimSpace (s : String) : String :=
  ⟨trimRunes s.data⟩

/-- The replacement `html.EscapeString` makes for one rune: its replacer is
`strings.NewReplacer("&", "&amp;", "'", "&#39;", "<", "&lt;", ">", "&gt;", "\"", "&#34;")`. -/
def escapeRune (c : Char) : List Char :=
  if c = '&' then ['&', 'a', 'm', 'p', ';']
  else if c = '\'' then ['&', '#', '3', '9', ';']
  else if c = '<' then ['&', 'l', 't', ';']
  else if c = '>' then ['&', 'g', 't', ';']
  else if c = '"' then ['&', '#', '3', '4', ';']
  else [c]

/-- The replacer of `html.EscapeString` run over a sequence of runes: every old string is one
ASCII character, so the replacement is rune by rune. -/
def escapeRunes : List Char → List Char
  | [] => []
  | c :: cs => escapeRune c ++ escapeRunes cs

/-- Go `html.EscapeString`. -/
def EscapeString (s : String) : String :=
  ⟨escapeRunes s.data⟩

/-- Lower-casing of one ASCII byte, as in the ASCII branch of `strings.ToLower`:
`if 'A' <= c && c <= 'Z' { c += 'a' - 'A' }`. -/
def asciiToLower (c : Char) : Char :=
  if 'A'.toNat ≤ c.toNat ∧ c.toNat ≤ 'Z'.toNat then Char.ofNat (c.toNat + 32) else c

/-- Go `strings.ToLower`. A string of ASCII bytes only has its letters `A`..`Z` lowered; any
other string is mapped rune by rune through `unicode.ToLower`, whose case table is the parameter
`unicodeToLower`. -/
def ToLower (unicodeToLower : Char → Char) (s : String) : String :=
  if s.data.all (fun c => decide (c.toNat < 0x80)) then ⟨s.data.map asciiToLower⟩
  else ⟨s.data.map unicodeToLower⟩

/-! ## `models/User.go` -/

/-- The `User` struct: the six fields the model declares itself. (The embedded `gorm.Model`
only adds a second id and three timestamps that no function of the model touches.) -/
structure User where
  ID : Nat
  Name : String
  PhoneNumber : String
  Email : String
  Password : String
  Verified : Bool
deriving DecidableEq, Repr

/-- The zero value of `User`, what `var user models.User` declares. -/
def User.zero : User := ⟨0, "", "", "", "", false⟩

/-- Method `(user *User) Prepare()`: clears the id and replaces name, email and phone number by
the HTML-escaped form of their trimmed value. -/
def User.Prepare (user : User) : User :=
  { user with
    ID := 0
    Name := EscapeString (TrimSpace user.Name)
    Email := EscapeString (TrimSpace user.Email)
    PhoneNumber := EscapeString (TrimSpace user.PhoneNumber) }

/-- Method `(user *User) Validate(action string) error`. `validateFormat email` tells whether
`checkmail.ValidateFormat(email)` returns `nil`; `unicodeToLower` is the case table behind
`strings.ToLower`. -/
def User.Validate (validateFormat : String → Bool) (unicodeToLower : Char → Char)
    (user : User) (action : String) : Option String :=
  let a := ToLower unicodeToLower action
  if a = "update" then
    if user.Name = "" then some "name is required"
    else if user.PhoneNumber = "" then some "phone number is required"
    else if user.Password = "" then some "password is required"
    else if user.Email = "" then some "email is required"
    else if ¬ validateFormat user.Email then some "email is invalid"
    else none
  else if a = "login" then
    if user.Password = "" then some "password is required"
    else if user.Email = "" then some "email is required"
    else if ¬ validateFormat user.Email then some "email is invalid"
    else none
  else
    if user.Name = "" then some "first name is required"
    else if user.PhoneNumber = "" then some "phone number is required"
    else if user.Password = "" then some "password is required"
    else if user.Email = "" then some "email is required"
    else if ¬ validateFormat user.Email then some "email is invalid"
    else none

/-- Method `(user *User) BeforeSave() error`: the password is replaced by its hash, unless
hashing fails. The parameter `Hash` is the function `Hash` of the model, that is
`bcrypt.GenerateFromPassword([]byte(password), bcrypt.DefaultCost)`. The method takes no
argument, whereas `gorm.io/gorm` only runs a before-save hook of type `func(*gorm.DB) error`
(its `BeforeSaveInterface`): no store operation below calls it, and neither does a controller. -/
def User.BeforeSave (Hash : String → Except String String) (user : User) : User × Option String :=
  match Hash user.Password with
  | .error err => (user, some err)
  | .ok hashedPassword => ({ user with Password := hashedPassword }, none)

/-! ## The request body and the store

The store is the `users` table behind `gorm.io/gorm`, with the keys the struct tags of `User`
declare: the primary key `ID`, and `unique` on `PhoneNumber` and `Email`. -/

/-- What a request body holds for the fields of a `User`: `none` for a key that is absent (or
`null`, or of the wrong JSON type, or when the body is no JSON at all), `some v` for a key with
value `v`. -/
structure Body where
  id : Option Nat
  name : Option String
  phoneNumber : Option String
  email : Option String
  password : Option String
  verified : Option Bool
deriving DecidableEq, Repr

/-- The call `json.NewDecoder(r.Body).Decode(&user)`: every field the body holds is written over
the field of `user`, every other field of `user` keeps its value. A number that does not fit
`uint32` is not stored. The error `Decode` returns is dropped by every caller. -/
def Decode (body : Body) (user : User) : User :=
  { ID := match body.id with
      | some n => if n < 2 ^ 32 then n else user.ID
      | none => user.ID
    Name := body.name.getD user.Name
    PhoneNumber := body.phoneNumber.getD user.PhoneNumber
    Email := body.email.getD user.Email
    Password := body.password.getD user.Password
    Verified := body.verified.getD user.Verified }

/-- The state behind `config.DB`, the `users` table: the rows a query sees (`deleted_at` is
null), and the rows that were deleted. `User` embeds `gorm.Model`, whose `DeletedAt` makes every
delete a soft delete, so a deleted row stays in the table and keeps its keys. -/
structure DB where
  users : List User
  deleted : List User
deriving DecidableEq, Repr

/-- An error of the store, as far as a caller can tell them apart. -/
inductive StoreError where
  | duplicatedKey
deriving DecidableEq, Repr

/-- Go `strconv.Atoi`: an optional sign and then decimal digits only, denoting a number that
fits `int` (64 bits); anything else is an error. -/
def Atoi (s : String) : Option Int :=
  let neg : Bool := s.data.head? == some '-'
  let digits : List Char :=
    if s.data.head? == some '-' || s.data.head? == some '+' then s.data.tail else s.data
  if digits.isEmpty || !digits.all Char.isDigit then none
  else
    let n : Nat := digits.foldl (fun n ch => n * 10 + (ch.toNat - '0'.toNat)) 0
    if neg then (if n ≤ 2 ^ 63 then some (-(n : Int)) else none)
    else (if n < 2 ^ 63 then some (n : Int) else none)

/-- The condition that `gorm` builds from the one string argument of `First` and `Delete`. -/
inductive Where where
  | all
  | key (n : Int)
  | raw (sql : String)
deriving DecidableEq, Repr

/-- The function `Statement.BuildCondition` of `gorm` on one string argument, which is how the
controllers pass the route variable: a string that `strconv.Atoi` accepts stands for the primary
key, the empty string for no condition, and every other string is itself taken as the text of
the condition. -/
def BuildCondition (userId : String) : Where :=
  match Atoi userId with
  | some n => .key n
  | none => if userId = "" then .all else .raw userId

/-- The rows a condition selects. `rawWhere sql` is the store's reading of a condition given as
text: `none` when the store refuses the statement, else the test it applies to a row. -/
def Where.test (rawWhere : String → Option (User → Bool)) : Where → Option (User → Bool)
  | .all => some (fun _ => true)
  | .key n => some (fun row => (row.ID : Int) == n)
  | .raw sql => rawWhere sql

/-- The row with the least primary key (`ORDER BY id LIMIT 1`). -/
def firstByKey (rows : List User) : Option User :=
  rows.foldl (fun best row =>
    match best with
    | none => some row
    | some b => if row.ID < b.ID then some row else some b) none

/-- The call `config.DB.First(&user, userId)`: the first row, in primary-key order, that the
condition built from `userId` selects among the rows a query sees is loaded into `user`; when
there is none, or the store refuses the statement, `user` is left as it was (the error is
dropped by every caller). -/
def DB.First (rawWhere : String → Option (User → Bool)) (db : DB) (user : User)
    (userId : String) : User :=
  match (BuildCondition userId).test rawWhere with
  | none => user
  | some test => (firstByKey (db.users.filter test)).getD user

/-- The id the store gives a row inserted without one (`auto_increment`). -/
def DB.nextID (db : DB) : Nat :=
  ((db.users ++ db.deleted).map (fun row => row.ID)).foldr max 0 + 1

/-- A record would break the primary key or one of the `unique` columns (phone number, email)
against one of the rows. -/
def keyConflict (rows : List User) (user : User) : Bool :=
  rows.any (fun row =>
    row.ID == user.ID || row.PhoneNumber == user.PhoneNumber || row.Email == user.Email)

/-- The call `config.DB.Create(&user)`: a zero id is replaced by the store's next id, the row is
inserted as it is given (no hook of the model runs, see `User.BeforeSave`), and `user` gets the
id back. A row that breaks a key of a row of the table, deleted or not, is refused: the table
is unchanged and the error is returned. -/
def DB.Create (db : DB) (user : User) : DB × User × Option StoreError :=
  let row := if user.ID = 0 then { user with ID := db.nextID } else user
  if keyConflict (db.users ++ db.deleted) row then (db, user, some .duplicatedKey)
  else (⟨db.users ++ [row], db.deleted⟩, row, none)

/-- The call `config.DB.Save(&user)`: with a zero primary key it is `Create`; otherwise every
column of the row a query sees under that primary key is overwritten, and when no such row is
affected the record is inserted with `ON CONFLICT` on the primary key, which overwrites and
restores a deleted row under that key. A record that breaks a `unique` column of another row
is refused. -/
def DB.Save (db : DB) (user : User) : DB × User × Option StoreError :=
  if user.ID = 0 then db.Create user
  else if keyConflict ((db.users ++ db.deleted).filter (fun row => row.ID != user.ID)) user then
    (db, user, some .duplicatedKey)
  else if db.users.any (fun row => row.ID == user.ID) then
    (⟨db.users.map (fun row => if row.ID == user.ID then user else row), db.deleted⟩, user, none)
  else
    (⟨db.users ++ [user], db.deleted.filter (fun row => row.ID != user.ID)⟩, user, none)

/-- The call `config.DB.Delete(&user, userId)` with a zero `user`: every row a query sees that
the condition built from `userId` selects is marked deleted; `user` is not loaded from the
store. Without a condition, or when the store refuses the statement, nothing is deleted. -/
def DB.Delete (rawWhere : String → Option (User → Bool)) (db : DB) (user : User)
    (userId : String) : DB × User :=
  match BuildCondition userId with
  | .all => (db, user)
  | cond =>
    match cond.test rawWhere with
    | none => (db, user)
    | some test =>
      (⟨db.users.filter (fun row => !test row), db.deleted ++ db.users.filter test⟩, user)

/-! ## `controllers/User.controller.go`

A handler takes the store, the `id` route variable (a string, `mux.Vars(r)["id"]`) and the
request body, and returns the store it leaves together with what it did to the response
writer. -/

/-- What a handler does to its response: encodes a user, encodes a message, each under the
status written before it (200 when none was written), or panics. -/
inductive Reply where
  | user (status : Nat) (user : User)
  | message (status : Nat) (text : String)
  | panic (err : StoreError)
deriving DecidableEq, Repr

/-- Function `checkIfUserExists`. -/
def checkIfUserExists (rawWhere : String → Option (User → Bool)) (db : DB)
    (userId : String) : Bool :=
  let user := db.First rawWhere User.zero userId
  user.ID != 0

/-- Handler `GetUserById`. -/
def GetUserById (rawWhere : String → Option (User → Bool)) (db : DB)
    (userId : String) : DB × Reply :=
  if !checkIfUserExists rawWhere db userId then (db, .message 200 "user not found!")
  else
    let user := db.First rawWhere User.zero userId
    (db, .user 200 user)

/-- Handler `CreateUser`: the decoded body goes straight to `config.DB.Create`. -/
def CreateUser (db : DB) (body : Body) : DB × Reply :=
  let user := Decode body User.zero
  match db.Create user with
  | (db', _, some err) => (db', .panic err)
  | (db', user', none) => (db', .user 200 user')

/-- Handler `UpdateUserById`. The result of `config.DB.Save` is not looked at. -/
def UpdateUserById (rawWhere : String → Option (User → Bool)) (db : DB) (userId : String)
    (body : Body) : DB × Reply :=
  if !checkIfUserExists rawWhere db userId then (db, .message 404 "user not found!")
  else
    let user := db.First rawWhere User.zero userId
    let user := Decode body user
    match db.Save user with
    | (db', user', _) => (db', .user 200 user')

/-- Handler `DeleteUserById`. -/
def DeleteUserById (rawWhere : String → Option (User → Bool)) (db : DB)
    (userId : String) : DB × Reply :=
  if !checkIfUserExists rawWhere db userId then (db, .message 404 "user not found!")
  else
    let user := User.zero
    match db.Delete rawWhere user userId with
    | (db', user') => (db', .user 200 user')

/-! ## Specification vocabulary for the sanitiser -/

/-- The five escape entities `html.EscapeString` emits. -/
def escapeEntities : List (List Char) :=
  [['&', 'a', 'm', 'p', ';'], ['&', '#', '3', '9', ';'], ['&', 'l', 't', ';'],
   ['&', 'g', 't', ';'], ['&', '#', '3', '4', ';']]

/-- The characters `html.EscapeString` rewrites. -/
def markupRunes : List Char := ['&', '\'', '<', '>', '"']

/-- A string without any character that `html.EscapeString` rewrites. -/
def MarkupFree (s : String) : Prop := ∀ c ∈ s.data, c ∉ markupRunes

/-- What a sanitised field looks like: it neither starts nor ends with white space
(`unicode.IsSpace`), holds none of `<`, `>`, `"`, `'`, and at every position holding `&` one of
the five escape entities starts. -/
def Sanitised (s : String) : Prop :=
  (∀ c, s.data.head? = some c → IsSpace c = false) ∧
  (∀ c, s.data.getLast? = some c → IsSpace c = false) ∧
  (∀ c ∈ s.data, c ≠ '<' ∧ c ≠ '>' ∧ c ≠ '"' ∧ c ≠ '\'') ∧
  (∀ i, s.data[i]? = some '&' → ∃ e ∈ escapeEntities, e <+: s.data.drop i)

/-! ## Specification vocabulary for validation -/

/-- The fields `Validate` can require. -/
inductive Field where
  | name | phoneNumber | password | email
deriving DecidableEq, Repr

/-- The value of a field of a record. -/
def User.field (user : User) : Field → String
  | .name => user.Name
  | .phoneNumber => user.PhoneNumber
  | .password => user.Password
  | .email => user.Email

/-- The required fields of an action, in check order: password and email for an action that
lower-cases to `login`; name, phone number, password and email for every other action. -/
def requiredFields (unicodeToLower : Char → Char) (action : String) : List Field :=
  if ToLower unicodeToLower action = "login" then [.password, .email]
  else [.name, .phoneNumber, .password, .email]

/-- The failure reported for an empty required field. -/
def requiredMessage (unicodeToLower : Char → Char) (action : String) : Field → String
  | .name =>
    if ToLower unicodeToLower action = "update" then "name is required"
    else "first name is required"
  | .phoneNumber => "phone number is required"
  | .password => "password is required"
  | .email => "email is required"

/-! ## Sample data -/

/-- The creation request of the specification's scenario. -/
def adaBody : Body :=
  ⟨none, some "Ada", some "+1-555-0100", some "ada@example.com", some "longenough1", none⟩

/-- A stored user. -/
def adaRow : User := ⟨1, "Ada", "+1-555-0100", "ada@example.com", "$2a$10$adahash", true⟩

/-- Another stored user. -/
def bobRow : User := ⟨5, "Bob", "+1-555-0105", "bob@example.com", "$2a$10$bobhash", false⟩

/-! ## Lemmas on escaping -/

theorem escapeRune_ne_nil (c : Char) : escapeRune c ≠ [] := by
  unfold escapeRune; split_ifs <;> simp

theorem escapeRune_of_not_mem {c : Char} (h : c ∉ markupRunes) : escapeRune c = [c] := by
  simp only [markupRunes, List.mem_cons, List.mem_singleton, not_or, List.not_mem_nil,
    or_false] at h
  obtain ⟨h1, h2, h3, h4, h5⟩ := h
  simp [escapeRune, h1, h2, h3, h4, h5]

theorem escapeRune_of_mem {c : Char} (h : c ∈ markupRunes) :
    escapeRune c ∈ escapeEntities := by
  simp only [markupRunes, List.mem_cons, List.mem_singleton, List.not_mem_nil, or_false] at h
  rcases h with h | h | h | h | h <;> subst h <;> decide

theorem escapeRunes_append (l₁ l₂ : List Char) :
    escapeRunes (l₁ ++ l₂) = escapeRunes l₁ ++ escapeRunes l₂ := by
  induction l₁ with
  | nil => rfl
  | cons c cs ih => simp [escapeRunes, ih]

theorem entity_amp_only_first {e : List Char} (he : e ∈ escapeEntities) (i : Nat)
    (h : e[i]? = some '&') : i = 0 := by
  simp only [escapeEntities, List.mem_cons, List.mem_singleton, List.not_mem_nil, or_false] at he
  rcases he with he | he | he | he | he <;> subst he <;>
    (rcases i with _ | _ | _ | _ | _ | i <;> simp_all)

theorem entity_shape {e : List Char} (he : e ∈ escapeEntities) :
    e.head? = some '&' ∧ e.getLast? = some ';' ∧
      ∀ c ∈ e, c ≠ '<' ∧ c ≠ '>' ∧ c ≠ '"' ∧ c ≠ '\'' := by
  simp only [escapeEntities, List.mem_cons, List.mem_singleton, List.not_mem_nil, or_false] at he
  rcases he with he | he | he | he | he <;> subst he <;> decide

/-- The escaped text holds no `<`, `>`, `"` or `'`. -/
theorem escapeRunes_no_markup (l : List Char) :
    ∀ c ∈ escapeRunes l, c ≠ '<' ∧ c ≠ '>' ∧ c ≠ '"' ∧ c ≠ '\'' := by
  induction l with
  | nil => intro c hc; simp [escapeRunes] at hc
  | cons a as ih =>
    intro c hc
    simp only [escapeRunes, List.mem_append] at hc
    rcases hc with hc | hc
    · by_cases ha : a ∈ markupRunes
      · exact (entity_shape (escapeRune_of_mem ha)).2.2 c hc
      · rw [escapeRune_of_not_mem ha, List.mem_singleton] at hc
        subst hc
        simp only [markupRunes, List.mem_cons, List.mem_singleton, not_or, List.not_mem_nil,
          or_false] at ha
        exact ⟨ha.2.2.1, ha.2.2.2.1, ha.2.2.2.2, ha.2.1⟩
    · exact ih c hc

/-- Every `&` of the escaped text starts an entity. -/
theorem escapeRunes_amp (l : List Char) :
    ∀ i, (escapeRunes l)[i]? = some '&' → ∃ e ∈ escapeEntities, e <+: (escapeRunes l).drop i := by
  induction l with
  | nil => intro i h; simp [escapeRunes] at h
  | cons a as ih =>
    intro i h
    simp only [escapeRunes] at h ⊢
    by_cases hi : i < (escapeRune a).length
    · rw [List.getElem?_append_left hi] at h
      by_cases ha : a ∈ markupRunes
      · have h0 := entity_amp_only_first (escapeRune_of_mem ha) i h
        subst h0
        exact ⟨escapeRune a, escapeRune_of_mem ha, by simp⟩
      · rw [escapeRune_of_not_mem ha] at h hi
        simp only [List.length_singleton, Nat.lt_one_iff] at hi
        subst hi
        simp only [List.getElem?_cons_zero, Option.some.injEq] at h
        subst h
        exact absurd (by decide) ha
    · have hle : (escapeRune a).length ≤ i := Nat.le_of_not_lt hi
      rw [List.getElem?_append_right hle] at h
      obtain ⟨e, he, hpre⟩ := ih _ h
      refine ⟨e, he, ?_⟩
      rw [List.drop_append_eq_append_drop, List.drop_of_length_le hle, List.nil_append]
      exact hpre

/-- Escaping changes nothing exactly on the texts without any rewritten character. -/
theorem escapeRunes_length_le (l : List Char) : l.length ≤ (escapeRunes l).length := by
  induction l with
  | nil => simp [escapeRunes]
  | cons a as ih =>
    have := List.length_pos.mpr (escapeRune_ne_nil a)
    simp only [escapeRunes, List.length_append, List.length_cons]
    omega

theorem escapeRunes_eq_self_iff (l : List Char) :
    escapeRunes l = l ↔ ∀ c ∈ l, c ∉ markupRunes := by
  induction l with
  | nil => simp [escapeRunes]
  | cons a as ih =>
    constructor
    · intro h
      by_cases ha : a ∈ markupRunes
      · exfalso
        have hlen := congrArg List.length h
        have h4 : 4 ≤ (escapeRune a).length := by
          have he := escapeRune_of_mem ha
          simp only [escapeEntities, List.mem_cons, List.mem_singleton, List.not_mem_nil,
            or_false] at he
          rcases he with he | he | he | he | he <;> rw [he] <;> simp
        have := escapeRunes_length_le as
        simp only [escapeRunes, List.length_append, List.length_cons] at hlen
        omega
      · rw [escapeRunes, escapeRune_of_not_mem ha] at h
        simp only [List.singleton_append, List.cons.injEq, true_and] at h
        intro c hc
        rcases List.mem_cons.mp hc with hc | hc
        · exact hc ▸ ha
        · exact (ih.mp h) c hc
    · intro h
      have ha : a ∉ markupRunes := h a (List.mem_cons_self _ _)
      have has : ∀ c ∈ as, c ∉ markupRunes := fun c hc => h c (List.mem_cons_of_mem _ hc)
      rw [escapeRunes, escapeRune_of_not_mem ha, ih.mpr has]
      rfl

/-! ## Lemmas on trimming -/


theorem trimRunes_head (l : List Char) :
    ∀ c, (trimRunes l).head? = some c → IsSpace c = false := by
  intro c hc
  have hne : trimRunes l ≠ [] := by
    intro h; rw [h] at hc; simp at hc
  obtain ⟨t, ht⟩ : trimRunes l <+: l.dropWhile IsSpace := List.rdropWhile_prefix _ _
  cases hx : trimRunes l with
  | nil => exact absurd hx hne
  | cons a as =>
    rw [hx] at hc ht
    simp only [List.head?_cons, Option.some.injEq] at hc
    subst hc
    have hpos : 0 < (l.dropWhile IsSpace).length := by rw [← ht]; simp
    have h0 := List.dropWhile_get_zero_not IsSpace l hpos
    have : (l.dropWhile IsSpace).get ⟨0, hpos⟩ = a := by
      simp [← ht]
    rw [this] at h0
    simpa using h0

theorem trimRunes_getLast (l : List Char) :
    ∀ c, (trimRunes l).getLast? = some c → IsSpace c = false := by
  intro c hc
  have hne : trimRunes l ≠ [] := by
    intro h; rw [h] at hc; simp at hc
  rw [List.getLast?_eq_getLast _ hne, Option.some.injEq] at hc
  have := List.rdropWhile_last_not IsSpace (l.dropWhile IsSpace) hne
  rw [← hc]
  simpa [trimRunes] using this

theorem escapeRunes_head {l : List Char} (h : ∀ c, l.head? = some c → IsSpace c = false) :
    ∀ c, (escapeRunes l).head? = some c → IsSpace c = false := by
  intro c hc
  cases l with
  | nil => simp [escapeRunes] at hc
  | cons a as =>
    rw [escapeRunes, List.head?_append_of_ne_nil _ (escapeRune_ne_nil a)] at hc
    by_cases ha : a ∈ markupRunes
    · rw [(entity_shape (escapeRune_of_mem ha)).1, Option.some.injEq] at hc
      subst hc; decide
    · rw [escapeRune_of_not_mem ha, List.head?_cons, Option.some.injEq] at hc
      subst hc; exact h a rfl

theorem escapeRunes_getLast {l : List Char}
    (h : ∀ c, l.getLast? = some c → IsSpace c = false) :
    ∀ c, (escapeRunes l).getLast? = some c → IsSpace c = false := by
  intro c hc
  rcases List.eq_nil_or_concat l with hl | ⟨init, a, hl⟩
  · subst hl; simp [escapeRunes] at hc
  · rw [List.concat_eq_append] at hl
    subst hl
    have hlast : (init ++ [a]).getLast? = some a := by simp
    rw [escapeRunes_append, List.getLast?_append] at hc
    have hea : escapeRunes [a] = escapeRune a := by simp [escapeRunes]
    rw [hea] at hc
    by_cases ha : a ∈ markupRunes
    · rw [(entity_shape (escapeRune_of_mem ha)).2.1] at hc
      simp only [Option.or, Option.some.injEq] at hc
      subst hc; decide
    · rw [escapeRune_of_not_mem ha] at hc
      simp only [List.getLast?_singleton, Option.or, Option.some.injEq] at hc
      subst hc; exact h a hlast

theorem trimRunes_eq_self {l : List Char} (hh : ∀ c, l.head? = some c → IsSpace c = false)
    (hl : ∀ c, l.getLast? = some c → IsSpace c = false) : trimRunes l = l := by
  have h1 : l.dropWhile IsSpace = l := by
    rw [List.dropWhile_eq_self_iff]
    intro hpos
    have := hh (l.get ⟨0, hpos⟩) (by
      cases l with
      | nil => simp at hpos
      | cons a as => simp)
    simpa using this
  unfold trimRunes
  rw [h1, List.rdropWhile_eq_self_iff]
  intro hne
  have := hl (l.getLast hne) (List.getLast?_eq_getLast _ hne)
  simp [this]

/-- The sanitiser applied to one field. -/
theorem sanitised_field (s : String) : Sanitised (EscapeString (TrimSpace s)) := by
  refine ⟨?_, ?_, ?_, ?_⟩
  · exact escapeRunes_head (trimRunes_head s.data)
  · exact escapeRunes_getLast (trimRunes_getLast s.data)
  · exact escapeRunes_no_markup _
  · exact escapeRunes_amp _

/-- Sanitising a sanitised field re-escapes it. -/
theorem sanitise_twice (s : String) :
    EscapeString (TrimSpace (EscapeString (TrimSpace s))) = EscapeString (TrimSpace s) ↔
      MarkupFree (TrimSpace s) := by
  have htrim : TrimSpace (EscapeString (TrimSpace s)) = EscapeString (TrimSpace s) := by
    have := trimRunes_eq_self (escapeRunes_head (trimRunes_head s.data))
      (escapeRunes_getLast (trimRunes_getLast s.data))
    show String.mk (trimRunes (escapeRunes (trimRunes s.data))) = _
    rw [this]; rfl
  rw [htrim]
  show String.mk (escapeRunes (escapeRunes (trimRunes s.data))) =
    String.mk (escapeRunes (trimRunes s.data)) ↔ ∀ c ∈ trimRunes s.data, c ∉ markupRunes
  rw [String.ext_iff]
  show escapeRunes (escapeRunes (trimRunes s.data)) = escapeRunes (trimRunes s.data) ↔ _
  rw [escapeRunes_eq_self_iff]
  constructor
  · intro h c hc hm
    have hmem : '&' ∈ escapeRunes (trimRunes s.data) := by
      obtain ⟨l₁, l₂, hsplit⟩ := List.append_of_mem hc
      rw [hsplit, escapeRunes_append, escapeRunes]
      have := (entity_shape (escapeRune_of_mem hm)).1
      have h2 : '&' ∈ escapeRune c := List.mem_of_mem_head? this
      simp [h2]
    exact h _ hmem (by decide)
  · intro h
    have := (escapeRunes_eq_self_iff _).mpr h
    rw [this]; exact h

/-! ## Lemmas on the store -/

theorem firstByKey_nil : firstByKey [] = none := rfl

/-- A route id that denotes a number no row carries fails the existence check. -/
theorem checkIfUserExists_of_absent_key (rawWhere : String → Option (User → Bool)) (db : DB)
    (userId : String) (n : Int) (hn : Atoi userId = some n)
    (h : ∀ row ∈ db.users, (row.ID : Int) ≠ n) :
    checkIfUserExists rawWhere db userId = false := by
  have hfilter : db.users.filter (fun row => (row.ID : Int) == n) = [] := by
    rw [List.filter_eq_nil_iff]
    intro row hrow
    simpa using h row hrow
  simp [checkIfUserExists, DB.First, BuildCondition, hn, Where.test, hfilter, firstByKey_nil,
    User.zero]

/-- The update scenario of the specification in general: for a route id that denotes a number
no row carries, the update handler answers 404 "user not found!" and leaves the store as it
was. -/
theorem UpdateUserById_absent_key (rawWhere : String → Option (User → Bool)) (db : DB)
    (userId : String) (n : Int) (body : Body) (hn : Atoi userId = some n)
    (h : ∀ row ∈ db.users, (row.ID : Int) ≠ n) :
    UpdateUserById rawWhere db userId body = (db, Reply.message 404 "user not found!") := by
  simp [UpdateUserById, checkIfUserExists_of_absent_key rawWhere db userId n hn h]

/-! ## The claims -/

/-- Claim C1, as amended: sanitising twice agrees with sanitising once on id, password and
verified for every record, and on the whole record exactly when the trimmed name, email and
phone number hold none of `&`, `'`, `<`, `>`, `"`. -/
theorem Prepare_twice (user : User) :
    (user.Prepare.Prepare.ID = user.Prepare.ID ∧
      user.Prepare.Prepare.Password = user.Prepare.Password ∧
      user.Prepare.Prepare.Verified = user.Prepare.Verified) ∧
    (user.Prepare.Prepare = user.Prepare ↔
      MarkupFree (TrimSpace user.Name) ∧ MarkupFree (TrimSpace user.Email) ∧
        MarkupFree (TrimSpace user.PhoneNumber)) := by
  refine ⟨⟨rfl, rfl, rfl⟩, ?_⟩
  rw [← sanitise_twice user.Name, ← sanitise_twice user.Email,
    ← sanitise_twice user.PhoneNumber]
  cases user with
  | mk id name phone email password verified =>
    simp only [User.Prepare, User.mk.injEq, true_and, and_true]
    tauto

/-- Claim C1, refuted as stated: a name holding `&` is escaped again by the second pass. -/
theorem Prepare_twice_counterexample :
    User.Prepare ⟨0, "Tom & Jerry", "+1-555-0100", "tom@example.com", "longenough1", false⟩ =
        ⟨0, "Tom &amp; Jerry", "+1-555-0100", "tom@example.com", "longenough1", false⟩ ∧
      User.Prepare (User.Prepare
          ⟨0, "Tom & Jerry", "+1-555-0100", "tom@example.com", "longenough1", false⟩) =
        ⟨0, "Tom &amp;amp; Jerry", "+1-555-0100", "tom@example.com", "longenough1", false⟩ ∧
      User.Prepare (User.Prepare
          ⟨0, "Tom & Jerry", "+1-555-0100", "tom@example.com", "longenough1", false⟩) ≠
        User.Prepare ⟨0, "Tom & Jerry", "+1-555-0100", "tom@example.com", "longenough1", false⟩ := by
  decide

/-- Claim C2, as amended: validation succeeds exactly when the required fields are non-empty and
the email passes the format validator, where the required fields are password and email for
every action that `strings.ToLower` maps to `login`, and name, phone number, password and email
for every other action. -/
theorem Validate_succeeds_iff (validateFormat : String → Bool) (unicodeToLower : Char → Char)
    (user : User) (action : String) :
    user.Validate validateFormat unicodeToLower action = none ↔
      if ToLower unicodeToLower action = "login" then
        user.Password ≠ "" ∧ user.Email ≠ "" ∧ validateFormat user.Email = true
      else
        user.Name ≠ "" ∧ user.PhoneNumber ≠ "" ∧ user.Password ≠ "" ∧ user.Email ≠ "" ∧
          validateFormat user.Email = true := by
  unfold User.Validate
  by_cases hu : ToLower unicodeToLower action = "update"
  · have hl : ToLower unicodeToLower action ≠ "login" := by rw [hu]; decide
    simp only [hu, hl, if_true, if_false]
    split_ifs <;> simp_all
  · by_cases hl : ToLower unicodeToLower action = "login"
    · simp only [hu, hl, if_true, if_false]
      split_ifs <;> simp_all
    · simp only [hu, hl, if_true, if_false]
      split_ifs <;> simp_all

/-- Claim C2, refuted as stated: the action `LOGIN` is not the string `login`, yet a record
with an empty name and an empty phone number passes validation under it. -/
theorem Validate_counterexample :
    "LOGIN" ≠ "login" ∧
      (∀ (validateFormat : String → Bool) (unicodeToLower : Char → Char),
        validateFormat "ada@example.com" = true →
        User.Validate validateFormat unicodeToLower
          ⟨0, "", "", "ada@example.com", "longenough1", false⟩ "LOGIN" = none) := by
  refine ⟨by decide, ?_⟩
  intro validateFormat unicodeToLower h
  have hl : ToLower unicodeToLower "LOGIN" = "login" := rfl
  simp [User.Validate, hl, h]

/-- Claim C3: validation returns the failure of the earliest empty required field in check
order, and the email-format failure only when no required field is empty. -/
theorem Validate_first_failure (validateFormat : String → Bool) (unicodeToLower : Char → Char)
    (user : User) (action : String) :
    (user.Validate validateFormat unicodeToLower action =
      match (requiredFields unicodeToLower action).find? (fun f => decide (user.field f = "")) with
      | some f => some (requiredMessage unicodeToLower action f)
      | none => if validateFormat user.Email then none else some "email is invalid") ∧
    (∀ f, requiredMessage unicodeToLower action f ≠ "email is invalid") := by
  constructor
  · unfold User.Validate requiredFields
    by_cases hu : ToLower unicodeToLower action = "update"
    · have hl : ToLower unicodeToLower action ≠ "login" := by rw [hu]; decide
      by_cases h1 : user.Name = "" <;> by_cases h2 : user.PhoneNumber = "" <;>
        by_cases h3 : user.Password = "" <;> by_cases h4 : user.Email = "" <;>
        by_cases h5 : validateFormat user.Email = true <;>
        simp [hu, hl, h1, h2, h3, h4, h5, List.find?, User.field, requiredMessage]
    · by_cases hl : ToLower unicodeToLower action = "login"
      · by_cases h3 : user.Password = "" <;> by_cases h4 : user.Email = "" <;>
          by_cases h5 : validateFormat user.Email = true <;>
          simp [hu, hl, h3, h4, h5, List.find?, User.field, requiredMessage]
      · by_cases h1 : user.Name = "" <;> by_cases h2 : user.PhoneNumber = "" <;>
          by_cases h3 : user.Password = "" <;> by_cases h4 : user.Email = "" <;>
          by_cases h5 : validateFormat user.Email = true <;>
          simp [hu, hl, h1, h2, h3, h4, h5, List.find?, User.field, requiredMessage]
  · intro f
    cases f <;> simp only [requiredMessage] <;> (try split_ifs) <;> decide

/-- Claim C4 at the creation scenario of the specification: the row that reaches the table, and
the record sent back, carry the submitted password `longenough1` itself. -/
theorem CreateUser_stores_plaintext_password :
    CreateUser ⟨[], []⟩ adaBody =
      (⟨[⟨1, "Ada", "+1-555-0100", "ada@example.com", "longenough1", false⟩], []⟩,
        Reply.user 200 ⟨1, "Ada", "+1-555-0100", "ada@example.com", "longenough1", false⟩) := by
  decide

/-- Claim C5 at two payloads that fail validation: one with the email `not-an-email` (rejected
by every validator that refuses that address), one with an empty name. Both are inserted. -/
theorem CreateUser_writes_invalid_payload :
    (∀ (validateFormat : String → Bool) (unicodeToLower : Char → Char),
        validateFormat "not-an-email" = false →
        User.Validate validateFormat unicodeToLower
          (Decode ⟨none, some "Ada", some "+1-555-0100", some "not-an-email",
            some "longenough1", none⟩ User.zero) "" = some "email is invalid") ∧
      CreateUser ⟨[], []⟩
          ⟨none, some "Ada", some "+1-555-0100", some "not-an-email", some "longenough1", none⟩ =
        (⟨[⟨1, "Ada", "+1-555-0100", "not-an-email", "longenough1", false⟩], []⟩,
          Reply.user 200 ⟨1, "Ada", "+1-555-0100", "not-an-email", "longenough1", false⟩) ∧
      (∀ (validateFormat : String → Bool) (unicodeToLower : Char → Char),
        User.Validate validateFormat unicodeToLower
          (Decode ⟨none, none, some "+1-555-0100", some "ada@example.com",
            some "longenough1", none⟩ User.zero) "" = some "first name is required") ∧
      CreateUser ⟨[], []⟩
          ⟨none, none, some "+1-555-0100", some "ada@example.com", some "longenough1", none⟩ =
        (⟨[⟨1, "", "+1-555-0100", "ada@example.com", "longenough1", false⟩], []⟩,
          Reply.user 200 ⟨1, "", "+1-555-0100", "ada@example.com", "longenough1", false⟩) := by
  refine ⟨?_, by decide, ?_, by decide⟩
  · intro validateFormat unicodeToLower h
    have hl : ToLower unicodeToLower "" = "" := rfl
    simp [User.Validate, hl, Decode, User.zero, h]
  · intro validateFormat unicodeToLower
    have hl : ToLower unicodeToLower "" = "" := rfl
    simp [User.Validate, hl, Decode, User.zero]

/-- Claim C6 at a payload carrying the id 7: the record that reaches the table has the id 7 the
client sent, not a store-assigned one. -/
theorem CreateUser_keeps_client_id :
    (Decode ⟨some 7, some "Ada", some "+1-555-0100", some "ada@example.com",
        some "longenough1", none⟩ User.zero).ID = 7 ∧
      CreateUser ⟨[], []⟩
          ⟨some 7, some "Ada", some "+1-555-0100", some "ada@example.com",
            some "longenough1", none⟩ =
        (⟨[⟨7, "Ada", "+1-555-0100", "ada@example.com", "longenough1", false⟩], []⟩,
          Reply.user 200 ⟨7, "Ada", "+1-555-0100", "ada@example.com", "longenough1", false⟩) := by
  decide

/-- Claim C7 at the route id `99999999999999999999`, which no row carries: `strconv.Atoi`
rejects it, so the store runs it as the condition itself, and on a store that reads a bare
non-zero number as a condition true of every row the existence check passes, the row of user 1
is loaded, overwritten with the body and sent back. -/
theorem UpdateUserById_unknown_id_writes :
    BuildCondition "99999999999999999999" = Where.raw "99999999999999999999" ∧
      (∀ row ∈ [adaRow, bobRow], row.ID ≠ 99999999999999999999) ∧
      (∀ rawWhere : String → Option (User → Bool),
        rawWhere "99999999999999999999" = some (fun _ => true) →
        checkIfUserExists rawWhere ⟨[adaRow, bobRow], []⟩ "99999999999999999999" = true ∧
          UpdateUserById rawWhere ⟨[adaRow, bobRow], []⟩ "99999999999999999999"
              ⟨none, some "Mallory", none, none, none, none⟩ =
            (⟨[⟨1, "Mallory", "+1-555-0100", "ada@example.com", "$2a$10$adahash", true⟩,
                bobRow], []⟩,
              Reply.user 200
                ⟨1, "Mallory", "+1-555-0100", "ada@example.com", "$2a$10$adahash", true⟩)) := by
  have hb : BuildCondition "99999999999999999999" = Where.raw "99999999999999999999" := by
    decide
  refine ⟨hb, by decide, ?_⟩
  intro rawWhere h
  have hfirst : DB.First rawWhere ⟨[adaRow, bobRow], []⟩ User.zero "99999999999999999999" =
      adaRow := by
    simp only [DB.First, hb, Where.test, h]
    decide
  constructor
  · simp only [checkIfUserExists, hfirst]
    decide
  · simp only [UpdateUserById, checkIfUserExists, hfirst]
    decide

/-- Claim C8 at a store holding Ada under id 1: the row leaves the rows a query sees, and the
record sent back is the zero record, not Ada. -/
theorem DeleteUserById_returns_zero_record :
    User.zero ≠ adaRow ∧
      (∀ rawWhere : String → Option (User → Bool),
        checkIfUserExists rawWhere ⟨[adaRow, bobRow], []⟩ "1" = true ∧
          DeleteUserById rawWhere ⟨[adaRow, bobRow], []⟩ "1" =
            (⟨[bobRow], [adaRow]⟩, Reply.user 200 User.zero)) :=
  ⟨by decide, fun _ => ⟨rfl, rfl⟩⟩

/-- Claim C9 at an update of user 1 whose body carries the id 5: the row of user 5 is
overwritten, the row of user 1 is untouched, and the record sent back has id 5. -/
theorem UpdateUserById_follows_body_id (rawWhere : String → Option (User → Bool)) :
    UpdateUserById rawWhere ⟨[adaRow, bobRow], []⟩ "1"
        ⟨some 5, some "Mallory", some "+1-555-0199", some "mallory@example.com", none, none⟩ =
      (⟨[adaRow, ⟨5, "Mallory", "+1-555-0199", "mallory@example.com", "$2a$10$adahash", true⟩],
          []⟩,
        Reply.user 200
          ⟨5, "Mallory", "+1-555-0199", "mallory@example.com", "$2a$10$adahash", true⟩) :=
  rfl

/-- Claim C10: after `Prepare`, name, email and phone number neither start nor end with white
space, hold none of `<`, `>`, `"`, `'`, and every `&` in them starts an escape entity; password
and verified are unchanged. -/
theorem Prepare_sanitises (user : User) :
    Sanitised user.Prepare.Name ∧ Sanitised user.Prepare.Email ∧
      Sanitised user.Prepare.PhoneNumber ∧
      user.Prepare.Password = user.Password ∧ user.Prepare.Verified = user.Verified :=
  ⟨sanitised_field _, sanitised_field _, sanitised_field _, rfl, rfl⟩

end GoEvents
